import Mathlib

/-!
Verification development for the infinite-edit spatial code-canvas webview.

The definitions below are shallow embeddings of the TypeScript sources:

* `Rect`, `Rect.containsB` — PixiJS `Rectangle` and its `contains` test
  (half-open on the right/bottom, degenerate rectangles contain nothing),
  as used by `MaskedHitArea` and `Grid`.
* `MaskManager.*` — `src/webview/core/MaskManager.ts` (provider/consumer
  registries, `update`, `MaskedHitArea.contains`).
* `Grid.update` — `src/webview/canvas/Grid.ts` (redraw hysteresis and
  line-geometry regeneration).
* `EditorNode.*` — drag/resize pointer handlers of
  `src/webview/nodes/EditorNode.ts`.
* `CanvasManager.onWheel` — the wheel-zoom handler of
  `src/webview/canvas/CanvasManager.ts`.
* `NodeLayoutManager.calculateSizeForContent` — content-driven node sizing
  of `src/webview/canvas/NodeLayoutManager.ts`.

JavaScript numbers are modelled as `ℚ` (
`ℝ` only where `Math.pow` with a fractional exponent forces it), and
`Math.log10` is passed as an explicit function parameter constrained by the
properties of the real `log10` that the proofs need (monotone, nonnegative
on inputs `≥ 1`).
-/

/-- PixiJS `Rectangle`: position plus size, all JS numbers (modelled as `ℚ`). -/
structure Rect where
  x : ℚ
  y : ℚ
  width : ℚ
  height : ℚ
  deriving DecidableEq, Repr

/-- PixiJS `Rectangle.right = x + width`. -/
def Rect.right (r : Rect) : ℚ := r.x + r.width

/-- PixiJS `Rectangle.bottom = y + height`. -/
def Rect.bottom (r : Rect) : ℚ := r.y + r.height

/-- PixiJS `Rectangle.contains(x, y)`: false for empty rectangles, otherwise
half-open containment `x ∈ [this.x, this.x + width)`, `y ∈ [this.y, this.y + height)`. -/
def Rect.containsB (r : Rect) (x y : ℚ) : Bool :=
  if r.width ≤ 0 ∨ r.height ≤ 0 then false
  else decide (r.x ≤ x ∧ x < r.x + r.width ∧ r.y ≤ y ∧ y < r.y + r.height)

/-- A point strictly inside a rectangle (used to state the hit-area claims). -/
def Rect.strictlyInside (r : Rect) (x y : ℚ) : Prop :=
  r.x < x ∧ x < r.x + r.width ∧ r.y < y ∧ y < r.y + r.height

instance (r : Rect) (x y : ℚ) : Decidable (r.strictlyInside x y) := by
  unfold Rect.strictlyInside; infer_instance

namespace MaskManager

/-- Provider and consumer handles are modelled by natural numbers standing for
JS object identities (`includes`/`indexOf` compare by reference). -/
abbrev Handle := ℕ

/-- The mutable state of a `MaskManager`: the two registration lists. -/
structure State where
  providers : List Handle
  consumers : List Handle
  deriving DecidableEq, Repr

/-- `MaskManager.registerProvider`: push only if not already `includes`d. -/
def registerProvider (st : State) (p : Handle) : State :=
  if p ∈ st.providers then st else { st with providers := st.providers ++ [p] }

/-- `MaskManager.unregisterProvider`: `indexOf` then `splice` of the first
occurrence; a no-op when absent. -/
def unregisterProvider (st : State) (p : Handle) : State :=
  if p ∈ st.providers then { st with providers := st.providers.erase p } else st

/-- `MaskManager.registerConsumer`. -/
def registerConsumer (st : State) (c : Handle) : State :=
  if c ∈ st.consumers then st else { st with consumers := st.consumers ++ [c] }

/-- `MaskManager.unregisterConsumer`. -/
def unregisterConsumer (st : State) (c : Handle) : State :=
  if c ∈ st.consumers then { st with consumers := st.consumers.erase c } else st

/-- `MaskManager.update()`: synchronously call `onMaskUpdate(this.providers)` on
every consumer, in consumer-registration order. The result records, in call
order, which consumer was called and the exact provider list it was handed. -/
def update (st : State) : List (Handle × List Handle) :=
  st.consumers.map fun c => (c, st.providers)

/-- A provider-registry operation, for reasoning about call sequences. -/
inductive Op where
  | register (p : Handle)
  | unregister (p : Handle)
  deriving DecidableEq, Repr

/-- Apply one provider-registry call to the manager state. -/
def applyOp (st : State) : Op → State
  | .register p => registerProvider st p
  | .unregister p => unregisterProvider st p

/-- Apply a sequence of provider-registry calls, oldest first. -/
def applyOps (st : State) (ops : List Op) : State :=
  ops.foldl applyOp st

/-- The handle an operation concerns. -/
def Op.target : Op → Handle
  | .register p => p
  | .unregister p => p

/-- Whether an operation is a registration. -/
def Op.isRegister : Op → Bool
  | .register _ => true
  | .unregister _ => false

/-- The last fate of a handle in a call sequence: `some true` if the most
recent call naming it registered it, `some false` if it unregistered it,
`none` if the sequence never names it. -/
def lastFate (p : Handle) : List Op → Option Bool
  | [] => none
  | op :: rest =>
      match lastFate p rest with
      | some b => some b
      | none => if op.target = p then some op.isRegister else none

end MaskManager

/-- `MaskedHitArea.contains(x, y)`: the point must be inside the base screen
rectangle and outside `getMaskGlobalBounds()` of every registered provider
(the interface reports one global rectangle per provider; `boundsOf` gives the
rectangle each provider handle currently reports). -/
def MaskedHitArea.contains (boundsOf : MaskManager.Handle → Rect)
    (providers : List MaskManager.Handle) (baseArea : Rect) (x y : ℚ) : Bool :=
  if ¬ baseArea.containsB x y then false
  else providers.all fun p => ¬ (boundsOf p).containsB x y

section MaskManagerLemmas

open MaskManager

theorem MaskManager.applyOp_providers_nodup {st : State} (h : st.providers.Nodup)
    (op : Op) : (applyOp st op).providers.Nodup := by
  cases op with
  | register p =>
      simp only [applyOp, registerProvider]
      split
      · exact h
      · simpa [List.nodup_append] using ⟨h, by assumption⟩
  | unregister p =>
      simp only [applyOp, unregisterProvider]
      split
      · exact h.erase p
      · exact h

theorem MaskManager.applyOps_providers_nodup {st : State} (h : st.providers.Nodup)
    (ops : List Op) : (applyOps st ops).providers.Nodup := by
  induction ops generalizing st with
  | nil => exact h
  | cons op rest ih => exact ih (applyOp_providers_nodup h op)

theorem MaskManager.applyOp_consumers (st : State) (op : Op) :
    (applyOp st op).consumers = st.consumers := by
  cases op <;> simp [applyOp, registerProvider, unregisterProvider] <;> split <;> rfl

theorem MaskManager.mem_applyOp {st : State} (h : st.providers.Nodup)
    (q : Handle) (op : Op) :
    q ∈ (applyOp st op).providers ↔
      (if op.target = q then op.isRegister = true else q ∈ st.providers) := by
  cases op with
  | register p =>
      simp only [applyOp, registerProvider, Op.target, Op.isRegister]
      by_cases hpq : p = q
      · subst hpq
        split <;> simp_all
      · split <;> simp_all [Ne.symm hpq]
  | unregister p =>
      simp only [applyOp, unregisterProvider, Op.target, Op.isRegister]
      by_cases hpq : p = q
      · subst hpq
        split <;> simp_all [List.Nodup.mem_erase_iff h]
      · split <;> simp_all [List.Nodup.mem_erase_iff h, Ne.symm hpq]

/-- Membership after a call sequence is decided by the handle's last fate. -/
theorem MaskManager.mem_applyOps {st : State} (h : st.providers.Nodup)
    (ops : List Op) (q : Handle) :
    q ∈ (applyOps st ops).providers ↔
      (match lastFate q ops with
       | some b => b = true
       | none => q ∈ st.providers) := by
  induction ops generalizing st with
  | nil => simp [applyOps, lastFate]
  | cons op rest ih =>
      have hstep := mem_applyOp h q op
      have hnd := applyOp_providers_nodup h op
      simp only [applyOps, List.foldl_cons] at *
      rw [ih hnd]
      simp only [lastFate]
      rcases hfate : lastFate q rest with _ | b
      · simp only [hfate]
        by_cases ht : op.target = q <;> simp [ht, hstep]
      · simp [hfate]

end MaskManagerLemmas

theorem Rect.containsB_of_strictlyInside {r : Rect} {x y : ℚ}
    (h : r.strictlyInside x y) : r.containsB x y = true := by
  obtain ⟨h1, h2, h3, h4⟩ := h
  have hw : 0 < r.width := by nlinarith
  have hh : 0 < r.height := by nlinarith
  simp only [Rect.containsB]
  rw [if_neg (by push_neg; exact ⟨hw, hh⟩)]
  exact decide_eq_true (by exact ⟨le_of_lt h1, h2, le_of_lt h3, h4⟩)

theorem MaskedHitArea.contains_eq_true_iff (boundsOf : MaskManager.Handle → Rect)
    (providers : List MaskManager.Handle) (base : Rect) (x y : ℚ) :
    MaskedHitArea.contains boundsOf providers base x y = true ↔
      (base.containsB x y = true ∧
        ∀ p ∈ providers, (boundsOf p).containsB x y = false) := by
  simp only [MaskedHitArea.contains]
  split
  · simp_all
  · simp_all [List.all_eq_true]

/-- C2: `MaskedHitArea.contains(x, y)` is true iff the point is inside the base
rectangle and outside the reported global bounds of every registered provider;
a point strictly inside some registered provider's bounds is "not hit", and
after that provider is unregistered the same point is "hit" (the point being in
the base rectangle and outside all remaining providers' bounds). -/
theorem maskedHitArea_contains_spec (boundsOf : MaskManager.Handle → Rect)
    (providers cs : List MaskManager.Handle) (base : Rect) (x y : ℚ) :
    (MaskedHitArea.contains boundsOf providers base x y = true ↔
      (base.containsB x y = true ∧
        ∀ p ∈ providers, (boundsOf p).containsB x y = false)) ∧
    (∀ p ∈ providers, (boundsOf p).strictlyInside x y →
      MaskedHitArea.contains boundsOf providers base x y = false) ∧
    (∀ p : MaskManager.Handle, base.containsB x y = true →
      (∀ q ∈ (MaskManager.unregisterProvider ⟨providers, cs⟩ p).providers,
        (boundsOf q).containsB x y = false) →
      MaskedHitArea.contains boundsOf
        (MaskManager.unregisterProvider ⟨providers, cs⟩ p).providers base x y = true) := by
  refine ⟨MaskedHitArea.contains_eq_true_iff boundsOf providers base x y, ?_, ?_⟩
  · intro p hp hin
    rcases hcon : MaskedHitArea.contains boundsOf providers base x y with _ | _
    · rfl
    · exfalso
      have := ((MaskedHitArea.contains_eq_true_iff boundsOf providers base x y).1 hcon).2 p hp
      rw [Rect.containsB_of_strictlyInside hin] at this
      exact Bool.true_eq_false.mp this
  · intro p hbase hrest
    exact (MaskedHitArea.contains_eq_true_iff boundsOf _ base x y).2 ⟨hbase, hrest⟩

/-- Witness for `maskedHitArea_contains_spec`: base screen `(0,0,100,100)`,
one provider (handle `0`) with bounds `(10,10,20,20)`, probe point `(15,15)`. -/
theorem maskedHitArea_contains_spec_witness :
    MaskedHitArea.contains (fun _ => ⟨10, 10, 20, 20⟩) [0] ⟨0, 0, 100, 100⟩ 15 15 = false ∧
    MaskedHitArea.contains (fun _ => ⟨10, 10, 20, 20⟩)
      (MaskManager.unregisterProvider ⟨[0], []⟩ 0).providers ⟨0, 0, 100, 100⟩ 15 15 = true :=
  ⟨(maskedHitArea_contains_spec (fun _ => ⟨10, 10, 20, 20⟩) [0] [] ⟨0, 0, 100, 100⟩ 15 15).2.1
      0 (by decide) (by norm_num [Rect.strictlyInside]),
   (maskedHitArea_contains_spec (fun _ => ⟨10, 10, 20, 20⟩) [0] [] ⟨0, 0, 100, 100⟩ 15 15).2.2
      0 (by norm_num [Rect.containsB])
      (by norm_num [MaskManager.unregisterProvider])⟩

theorem MaskManager.lastFate_eq_none_iff (p : MaskManager.Handle)
    (ops : List MaskManager.Op) :
    MaskManager.lastFate p ops = none ↔ p ∉ ops.map MaskManager.Op.target := by
  induction ops with
  | nil => simp [MaskManager.lastFate]
  | cons op rest ih =>
      simp only [MaskManager.lastFate, List.map_cons, List.mem_cons]
      rcases hfate : MaskManager.lastFate p rest with _ | b
      · rw [hfate] at ih
        have hnot : p ∉ rest.map MaskManager.Op.target := ih.mp rfl
        by_cases ht : op.target = p
        · rw [if_pos ht]
          simp [← ht]
        · rw [if_neg ht]
          exact iff_of_true rfl (by push_neg; exact ⟨fun hh => ht hh.symm, hnot⟩)
      · have : p ∈ rest.map MaskManager.Op.target := by
          by_contra hmem
          rw [← ih] at hmem
          simp [hfate] at hmem
        simp [this]

theorem MaskManager.applyOps_consumers (st : MaskManager.State)
    (ops : List MaskManager.Op) : (MaskManager.applyOps st ops).consumers = st.consumers := by
  induction ops generalizing st with
  | nil => rfl
  | cons op rest ih =>
      simp only [MaskManager.applyOps, List.foldl_cons] at *
      rw [ih, MaskManager.applyOp_consumers]

/-- C3: after any sequence of `registerProvider`/`unregisterProvider` calls
starting from an empty provider registry, `update()` synchronously hands every
registered consumer, in consumer order, the one current provider list; that
list has no duplicates, contains exactly the providers whose most recent call
was a registration, and its length is the number of distinct providers that
are currently registered (registered and not since unregistered). -/
theorem maskManager_update_delivery (cs : List MaskManager.Handle)
    (ops : List MaskManager.Op) :
    (MaskManager.update (MaskManager.applyOps ⟨[], cs⟩ ops) =
      cs.map (fun c => (c, (MaskManager.applyOps ⟨[], cs⟩ ops).providers))) ∧
    (MaskManager.applyOps ⟨[], cs⟩ ops).providers.Nodup ∧
    (∀ p, p ∈ (MaskManager.applyOps ⟨[], cs⟩ ops).providers ↔
      MaskManager.lastFate p ops = some true) ∧
    (MaskManager.applyOps ⟨[], cs⟩ ops).providers.length =
      ((ops.map MaskManager.Op.target).dedup.filter
        (fun p => MaskManager.lastFate p ops = some true)).length := by
  have hnd0 : ([] : List MaskManager.Handle).Nodup := List.nodup_nil
  have hnd := MaskManager.applyOps_providers_nodup
    (show (MaskManager.State.mk [] cs).providers.Nodup from List.nodup_nil) ops
  have hmem : ∀ p, p ∈ (MaskManager.applyOps ⟨[], cs⟩ ops).providers ↔
      MaskManager.lastFate p ops = some true := by
    intro p
    rw [MaskManager.mem_applyOps hnd0 ops p]
    rcases hfate : MaskManager.lastFate p ops with _ | b
    · simp
    · cases b <;> simp
  refine ⟨?_, hnd, hmem, ?_⟩
  · rw [MaskManager.update, MaskManager.applyOps_consumers]
  · have hndR : ((ops.map MaskManager.Op.target).dedup.filter
        (fun p => MaskManager.lastFate p ops = some true)).Nodup :=
      (List.nodup_dedup _).filter _
    refine List.Perm.length_eq ((List.perm_ext_iff_of_nodup hnd hndR).2 ?_)
    intro p
    rw [hmem p, List.mem_filter, List.mem_dedup]
    constructor
    · intro h
      refine ⟨?_, by simp [h]⟩
      by_contra hmem2
      rw [← MaskManager.lastFate_eq_none_iff] at hmem2
      rw [hmem2] at h
      cases h
    · intro ⟨_, h⟩
      simpa using h

/-- Witness for `maskManager_update_delivery` at a concrete call sequence
(register 1, register 2, register 1 again, unregister 2) with one consumer. -/
theorem maskManager_update_delivery_witness :
    MaskManager.update (MaskManager.applyOps ⟨[], [7]⟩
      [.register 1, .register 2, .register 1, .unregister 2]) =
      [(7, [1])] ∧
    (MaskManager.applyOps ⟨[], [7]⟩
      [.register 1, .register 2, .register 1, .unregister 2]).providers.length = 1 := by
  have h := maskManager_update_delivery [7]
    [.register 1, .register 2, .register 1, .unregister 2]
  exact ⟨by rw [h.1]; decide, by decide⟩

/-- C4: `MaskManager` registration is idempotent — registering an
already-registered provider or consumer handle leaves the state unchanged, and
unregistering an absent handle is a state-preserving no-op. -/
theorem maskManager_registration_idempotent (st : MaskManager.State)
    (p c : MaskManager.Handle) :
    (p ∈ st.providers → MaskManager.registerProvider st p = st) ∧
    (p ∉ st.providers → MaskManager.unregisterProvider st p = st) ∧
    (c ∈ st.consumers → MaskManager.registerConsumer st c = st) ∧
    (c ∉ st.consumers → MaskManager.unregisterConsumer st c = st) := by
  refine ⟨fun h => ?_, fun h => ?_, fun h => ?_, fun h => ?_⟩
  · simp [MaskManager.registerProvider, h]
  · simp [MaskManager.unregisterProvider, h]
  · simp [MaskManager.registerConsumer, h]
  · simp [MaskManager.unregisterConsumer, h]

/-- Witness for `maskManager_registration_idempotent` on the state with
providers `[1]` and consumers `[2]`. -/
theorem maskManager_registration_idempotent_witness :
    MaskManager.registerProvider ⟨[1], [2]⟩ 1 = ⟨[1], [2]⟩ ∧
    MaskManager.unregisterProvider ⟨[1], [2]⟩ 5 = ⟨[1], [2]⟩ ∧
    MaskManager.registerConsumer ⟨[1], [2]⟩ 2 = ⟨[1], [2]⟩ ∧
    MaskManager.unregisterConsumer ⟨[1], [2]⟩ 5 = ⟨[1], [2]⟩ :=
  ⟨(maskManager_registration_idempotent ⟨[1], [2]⟩ 1 2).1 (by decide),
   (maskManager_registration_idempotent ⟨[1], [2]⟩ 5 2).2.1 (by decide),
   (maskManager_registration_idempotent ⟨[1], [2]⟩ 1 2).2.2.1 (by decide),
   (maskManager_registration_idempotent ⟨[1], [2]⟩ 1 5).2.2.2 (by decide)⟩

/-- PixiJS `Rectangle.left = x`. -/
def Rect.left (r : Rect) : ℚ := r.x

/-- PixiJS `Rectangle.top = y`. -/
def Rect.top (r : Rect) : ℚ := r.y

namespace Grid

/-- One stroked grid line, from `(x1, y1)` to `(x2, y2)` (a
`moveTo(..).lineTo(..)` pair in `Grid.redraw`). -/
structure Segment where
  x1 : ℚ
  y1 : ℚ
  x2 : ℚ
  y2 : ℚ
  deriving DecidableEq, Repr

/-- The state the grid keeps between `update()` calls: the redraw-hysteresis
cache (`lastDrawnBounds`, `lastScale`, with `lastScale = -1` before the first
draw) and the currently stroked line geometry. -/
structure State where
  lastDrawnBounds : Rect
  lastScale : ℚ
  geometry : List Segment
  deriving DecidableEq, Repr

/-- The values visited by a JS loop `for (let v = a; v <= b; v += step)` with
`step > 0`. -/
def ascRange (a b step : ℤ) : List ℤ :=
  if a ≤ b then (List.range ((b - a).toNat / step.toNat + 1)).map (fun i => a + step * (i : ℤ))
  else []

/-- `Grid.redraw(left, top, right, bottom)`: minor lines every 100 world units
(skipping multiples of 1000), then major lines every 1000, in stroke order. -/
def lineGeometry (left top right bottom : ℤ) : List Segment :=
  ((ascRange left right 100).filter (fun v => ¬ v % 1000 = 0)).map
      (fun v => ⟨(v : ℚ), (top : ℚ), (v : ℚ), (bottom : ℚ)⟩) ++
    ((ascRange top bottom 100).filter (fun v => ¬ v % 1000 = 0)).map
      (fun v => ⟨(left : ℚ), (v : ℚ), (right : ℚ), (v : ℚ)⟩) ++
    (ascRange left right 1000).map (fun v => ⟨(v : ℚ), (top : ℚ), (v : ℚ), (bottom : ℚ)⟩) ++
    (ascRange top bottom 1000).map (fun v => ⟨(left : ℚ), (v : ℚ), (right : ℚ), (v : ℚ)⟩)

/-- The `isInside` check of `Grid.update()`: the current viewport bounds lie
inside the last-drawn bounds shrunk by a 10% margin on each side. -/
def isInside (bounds last : Rect) : Prop :=
  bounds.left ≥ last.x + last.width * (1 / 10) ∧
    bounds.right ≤ last.right - last.width * (1 / 10) ∧
    bounds.top ≥ last.y + last.height * (1 / 10) ∧
    bounds.bottom ≤ last.bottom - last.height * (1 / 10)

instance (bounds last : Rect) : Decidable (isInside bounds last) := by
  unfold isInside; infer_instance

/-- New draw-rectangle left edge: viewport left minus a two-major-cell padding,
floored to a major (1000-unit) grid line. -/
def drawLeft (bounds : Rect) : ℤ := ⌊(bounds.left - 1000 * 2) / 1000⌋ * 1000

/-- New draw-rectangle top edge. -/
def drawTop (bounds : Rect) : ℤ := ⌊(bounds.top - 1000 * 2) / 1000⌋ * 1000

/-- New draw-rectangle right edge, ceiled to a major grid line. -/
def drawRight (bounds : Rect) : ℤ := ⌈(bounds.right + 1000 * 2) / 1000⌉ * 1000

/-- New draw-rectangle bottom edge. -/
def drawBottom (bounds : Rect) : ℤ := ⌈(bounds.bottom + 1000 * 2) / 1000⌉ * 1000

/-- `Grid.update()` (the ticker-driven variant, `Grid.ts` lines 215–254):
skip the redraw when the scale moved by at most 1% of the current scale, the
viewport is inside the 10%-margin hysteresis region, and a previous draw
exists (`lastScale !== -1`); otherwise recompute the draw rectangle, record it
together with the scale, and regenerate the line geometry. Returns the new
state and whether a redraw happened. -/
def update (bounds : Rect) (currentScale : ℚ) (st : State) : State × Bool :=
  if ¬ (|currentScale - st.lastScale| > 1 / 100 * currentScale) ∧
      isInside bounds st.lastDrawnBounds ∧ st.lastScale ≠ -1 then
    (st, false)
  else
    (⟨⟨(drawLeft bounds : ℚ), (drawTop bounds : ℚ),
        ((drawRight bounds : ℚ) - (drawLeft bounds : ℚ)),
        ((drawBottom bounds : ℚ) - (drawTop bounds : ℚ))⟩,
      currentScale,
      lineGeometry (drawLeft bounds) (drawTop bounds) (drawRight bounds) (drawBottom bounds)⟩,
     true)

end Grid

/-- C1: `Grid.update()` skips regeneration exactly under the hysteresis
condition — scale within 1% relative of the last-drawn scale, viewport inside
the last-drawn bounds shrunk by the 10% margin, and a previous draw on record
— leaving the whole grid state (line geometry, `lastDrawnBounds`, `lastScale`)
untouched; in every other case it regenerates the line geometry for the padded
draw rectangle and records the new `lastDrawnBounds` and `lastScale`. -/
theorem grid_update_hysteresis (bounds : Rect) (currentScale : ℚ) (st : Grid.State) :
    (|currentScale - st.lastScale| ≤ 1 / 100 * currentScale →
      Grid.isInside bounds st.lastDrawnBounds →
      st.lastScale ≠ -1 →
      Grid.update bounds currentScale st = (st, false)) ∧
    (¬ (|currentScale - st.lastScale| ≤ 1 / 100 * currentScale ∧
        Grid.isInside bounds st.lastDrawnBounds ∧ st.lastScale ≠ -1) →
      (Grid.update bounds currentScale st).2 = true ∧
      (Grid.update bounds currentScale st).1.lastDrawnBounds =
        ⟨(Grid.drawLeft bounds : ℚ), (Grid.drawTop bounds : ℚ),
          ((Grid.drawRight bounds : ℚ) - (Grid.drawLeft bounds : ℚ)),
          ((Grid.drawBottom bounds : ℚ) - (Grid.drawTop bounds : ℚ))⟩ ∧
      (Grid.update bounds currentScale st).1.lastScale = currentScale ∧
      (Grid.update bounds currentScale st).1.geometry =
        Grid.lineGeometry (Grid.drawLeft bounds) (Grid.drawTop bounds)
          (Grid.drawRight bounds) (Grid.drawBottom bounds)) := by
  constructor
  · intro h1 h2 h3
    rw [Grid.update, if_pos ⟨not_lt.mpr h1, h2, h3⟩]
  · intro h
    rw [Grid.update, if_neg (fun hc => h ⟨not_lt.mp hc.1, hc.2⟩)]
    exact ⟨rfl, rfl, rfl, rfl⟩

/-- Witness for `grid_update_hysteresis`: a skip at viewport `(0,0,100,100)`
inside last-drawn bounds `(-3000,-3000,6000,6000)` at unchanged scale `1`, and
a regeneration from the initial state (`lastScale = -1`). -/
theorem grid_update_hysteresis_witness :
    Grid.update ⟨0, 0, 100, 100⟩ 1 ⟨⟨-3000, -3000, 6000, 6000⟩, 1, []⟩ =
      (⟨⟨-3000, -3000, 6000, 6000⟩, 1, []⟩, false) ∧
    (Grid.update ⟨0, 0, 100, 100⟩ 1 ⟨⟨0, 0, 0, 0⟩, -1, []⟩).2 = true ∧
    (Grid.update ⟨0, 0, 100, 100⟩ 1 ⟨⟨0, 0, 0, 0⟩, -1, []⟩).1.lastScale = 1 :=
  ⟨(grid_update_hysteresis ⟨0, 0, 100, 100⟩ 1 ⟨⟨-3000, -3000, 6000, 6000⟩, 1, []⟩).1
      (by norm_num)
      (by norm_num [Grid.isInside, Rect.left, Rect.top, Rect.right, Rect.bottom])
      (by norm_num),
   ((grid_update_hysteresis ⟨0, 0, 100, 100⟩ 1 ⟨⟨0, 0, 0, 0⟩, -1, []⟩).2
      (by simp)).1,
   ((grid_update_hysteresis ⟨0, 0, 100, 100⟩ 1 ⟨⟨0, 0, 0, 0⟩, -1, []⟩).2
      (by simp)).2.2.1⟩

namespace EditorNode

/-- The compass components of `resizeDirection` (`'n'`, `'s'`, `'e'`, `'w'` and
their corner combinations), as tested by `includes` in `onGlobalPointerMove`. -/
structure ResizeDir where
  n : Bool
  s : Bool
  e : Bool
  w : Bool
  deriving DecidableEq, Repr

/-- `EditorNode.onGlobalPointerMove` while resizing: the pointer delta relative
to the resize-start snapshot is converted to parent (world) coordinates, the
proposed width/height is clamped to the minimum size (200 × 100), and on a
west/north resize the position shifts so the opposite edge stays put.
`start` is `startResizeBounds`, `(mx, my)` is `startMousePosition`,
`(sx, sy)` is `parent.scale`, and `(cx, cy)` is the pointer's client position.
Returns the node's new `(x, y, width_, height_)`. -/
def onGlobalPointerMove (dir : ResizeDir) (start : Rect) (mx my sx sy cx cy : ℚ) : Rect :=
  let dx := (cx - mx) / sx
  let dy := (cy - my) / sy
  let newW₀ := if dir.e then max 200 (start.width + dx) else start.width
  let newX := if dir.w then
      (if 200 ≤ start.width - dx then start.x + dx else start.x + (start.width - 200))
    else start.x
  let newW := if dir.w then
      (if 200 ≤ start.width - dx then start.width - dx else 200)
    else newW₀
  let newH₀ := if dir.s then max 100 (start.height + dy) else start.height
  let newY := if dir.n then
      (if 100 ≤ start.height - dy then start.y + dy else start.y + (start.height - 100))
    else start.y
  let newH := if dir.n then
      (if 100 ≤ start.height - dy then start.height - dy else 100)
    else newH₀
  ⟨newX, newY, newW, newH⟩

/-- The per-node pointer-gesture flags (`isDragging`, `isResizing`). -/
structure GestureState where
  isDragging : Bool
  isResizing : Bool
  deriving DecidableEq, Repr

/-- `EditorNode.onDragStart` (pointer-down on the title bar): ignore non-primary
buttons, otherwise set the dragging flag. The resizing flag is not consulted. -/
def onDragStart (st : GestureState) (button : ℕ) : GestureState :=
  if button ≠ 0 then st else { st with isDragging := true }

/-- `EditorNode.onDragEnd`: clear the dragging flag if set. -/
def onDragEnd (st : GestureState) : GestureState :=
  if ¬ st.isDragging then st else { st with isDragging := false }

/-- `EditorNode.onWrapperPointerDown`: start a resize only with the primary
button, only when not dragging, and only when `getResizeDirection` found a
direction (`dirFound`). -/
def onWrapperPointerDown (st : GestureState) (button : ℕ) (dirFound : Bool) : GestureState :=
  if st.isDragging ∨ button ≠ 0 then st
  else if dirFound then { st with isResizing := true } else st

/-- `EditorNode.onGlobalPointerUp`: clear the resizing flag if set. -/
def onGlobalPointerUp (st : GestureState) : GestureState :=
  if st.isResizing then { st with isResizing := false } else st

end EditorNode

/-- C6: during a resize gesture the proposed dimension is clamped to the
minimum (width 200, height 100), and the opposite edge keeps its pre-resize
coordinate: a west resize preserves the east edge `x + width` and leaves the
proposed-width clamp exact, a north resize preserves the south edge
`y + height`, and east (without west) and south (without north) resizes leave
`x` respectively `y` unchanged while clamping to the minimum. -/
theorem editorNode_resize_clamp_anchor (dir : EditorNode.ResizeDir) (start : Rect)
    (mx my sx sy cx cy : ℚ) :
    (dir.w = true →
      (EditorNode.onGlobalPointerMove dir start mx my sx sy cx cy).x +
        (EditorNode.onGlobalPointerMove dir start mx my sx sy cx cy).width =
        start.x + start.width ∧
      (start.width - (cx - mx) / sx < 200 →
        (EditorNode.onGlobalPointerMove dir start mx my sx sy cx cy).width = 200)) ∧
    (dir.e = true → dir.w = false →
      (EditorNode.onGlobalPointerMove dir start mx my sx sy cx cy).x = start.x ∧
      (start.width + (cx - mx) / sx < 200 →
        (EditorNode.onGlobalPointerMove dir start mx my sx sy cx cy).width = 200)) ∧
    (dir.n = true →
      (EditorNode.onGlobalPointerMove dir start mx my sx sy cx cy).y +
        (EditorNode.onGlobalPointerMove dir start mx my sx sy cx cy).height =
        start.y + start.height ∧
      (start.height - (cy - my) / sy < 100 →
        (EditorNode.onGlobalPointerMove dir start mx my sx sy cx cy).height = 100)) ∧
    (dir.s = true → dir.n = false →
      (EditorNode.onGlobalPointerMove dir start mx my sx sy cx cy).y = start.y ∧
      (start.height + (cy - my) / sy < 100 →
        (EditorNode.onGlobalPointerMove dir start mx my sx sy cx cy).height = 100)) := by
  refine ⟨fun hw => ?_, fun he hw => ?_, fun hn => ?_, fun hs hn => ?_⟩
  · simp only [EditorNode.onGlobalPointerMove, hw, if_true]
    constructor
    · rcases le_or_lt 200 (start.width - (cx - mx) / sx) with h | h
      · rw [if_pos h, if_pos h]; ring
      · rw [if_neg (not_le.mpr h), if_neg (not_le.mpr h)]; ring
    · intro hclamp
      rw [if_neg (not_le.mpr hclamp)]
  · simp only [EditorNode.onGlobalPointerMove, he, hw, if_true, Bool.false_eq_true,
      if_false]
    refine ⟨trivial, fun hclamp => ?_⟩
    exact max_eq_left (le_of_lt hclamp)
  · simp only [EditorNode.onGlobalPointerMove, hn, if_true]
    constructor
    · rcases le_or_lt 100 (start.height - (cy - my) / sy) with h | h
      · rw [if_pos h, if_pos h]; ring
      · rw [if_neg (not_le.mpr h), if_neg (not_le.mpr h)]; ring
    · intro hclamp
      rw [if_neg (not_le.mpr hclamp)]
  · simp only [EditorNode.onGlobalPointerMove, hs, hn, if_true, Bool.false_eq_true,
      if_false]
    refine ⟨trivial, fun hclamp => ?_⟩
    exact max_eq_left (le_of_lt hclamp)

/-- Witness for `editorNode_resize_clamp_anchor`: a west resize from a
300×300 node with pointer delta 150 at scale 1 proposes width 150, gets
clamped to 200, and keeps the east edge at 300. -/
theorem editorNode_resize_clamp_anchor_witness :
    (EditorNode.onGlobalPointerMove ⟨false, false, false, true⟩
      ⟨0, 0, 300, 300⟩ 0 0 1 1 150 0).width = 200 ∧
    (EditorNode.onGlobalPointerMove ⟨false, false, false, true⟩
        ⟨0, 0, 300, 300⟩ 0 0 1 1 150 0).x +
      (EditorNode.onGlobalPointerMove ⟨false, false, false, true⟩
        ⟨0, 0, 300, 300⟩ 0 0 1 1 150 0).width = 300 := by
  have h := editorNode_resize_clamp_anchor ⟨false, false, false, true⟩
    ⟨0, 0, 300, 300⟩ 0 0 1 1 150 0
  refine ⟨(h.1 rfl).2 (by norm_num), ?_⟩
  have h2 := (h.1 rfl).1
  norm_num at h2
  exact h2

/-- C7 counterexample: starting from the idle state, a primary-button resize
start (direction found) followed by a primary-button drag start on the title
bar leaves the node simultaneously dragging and resizing — `onDragStart` does
not consult the resizing flag, so the drag start during a resize is not
ignored. -/
theorem editorNode_gesture_exclusivity_counterexample :
    (EditorNode.onDragStart (EditorNode.onWrapperPointerDown ⟨false, false⟩ 0 true) 0).isDragging
        = true ∧
    (EditorNode.onDragStart (EditorNode.onWrapperPointerDown ⟨false, false⟩ 0 true) 0).isResizing
        = true := by
  decide

/-- C7 (amended): a resize start while the node is dragging is ignored
(`onWrapperPointerDown` returns with no state change when `isDragging` is
set), but the converse guard does not exist: a primary-button drag start
while the node is resizing sets the dragging flag and keeps the resizing
flag, so the two gesture states can hold simultaneously. -/
theorem editorNode_gesture_exclusivity_amended (st : EditorNode.GestureState)
    (button : ℕ) (dirFound : Bool) :
    (st.isDragging = true → EditorNode.onWrapperPointerDown st button dirFound = st) ∧
    (st.isResizing = true →
      (EditorNode.onDragStart st 0).isDragging = true ∧
      (EditorNode.onDragStart st 0).isResizing = true) := by
  constructor
  · intro h
    rw [EditorNode.onWrapperPointerDown, if_pos (Or.inl h)]
  · intro h
    rw [EditorNode.onDragStart, if_neg (by simp)]
    exact ⟨rfl, h⟩

/-- Witness for `editorNode_gesture_exclusivity_amended` at the two concrete
states that satisfy its hypotheses. -/
theorem editorNode_gesture_exclusivity_amended_witness :
    EditorNode.onWrapperPointerDown ⟨true, false⟩ 0 true = ⟨true, false⟩ ∧
    (EditorNode.onDragStart ⟨false, true⟩ 0).isDragging = true ∧
    (EditorNode.onDragStart ⟨false, true⟩ 0).isResizing = true :=
  ⟨(editorNode_gesture_exclusivity_amended ⟨true, false⟩ 0 true).1 rfl,
   (editorNode_gesture_exclusivity_amended ⟨false, true⟩ 0 true).2 rfl⟩

namespace CanvasManager

/-- The canvas state touched by `onWheel`: the content container's position
and scale, plus the zoom level. `ZOOM_BASE = 1.1` and
`ZOOM_SENSITIVITY = 0.004`. The scale is a real number because
`Math.pow(1.1, zoomLevel)` takes a fractional exponent; the zoom level itself
stays rational. -/
structure State where
  x : ℝ
  y : ℝ
  zoomLevel : ℚ
  scale : ℝ

/-- The zoom-level increment `-e.deltaY * ZOOM_SENSITIVITY` of a wheel event. -/
def delta (deltaY : ℚ) : ℚ := -deltaY * (4 / 1000)

/-- `CanvasManager.onWheel`: convert the pointer to world coordinates, bump the
zoom level by `-deltaY * ZOOM_SENSITIVITY`, clamp it to `[-30, 10]`, set the
scale to `ZOOM_BASE ^ zoomLevel`, and reposition so the pointer stays over the
same world point. -/
noncomputable def onWheel (st : State) (gx gy : ℝ) (deltaY : ℚ) : State :=
  let worldX := (gx - st.x) / st.scale
  let worldY := (gy - st.y) / st.scale
  let zl := max (-30) (min (st.zoomLevel + delta deltaY) 10)
  let newScale : ℝ := (11 / 10 : ℝ) ^ ((zl : ℚ) : ℝ)
  ⟨gx - worldX * newScale, gy - worldY * newScale, zl, newScale⟩

/-- One wheel event: pointer global position and `deltaY`. -/
structure WheelEvent where
  gx : ℝ
  gy : ℝ
  deltaY : ℚ

/-- A sequence of wheel events processed in order. -/
noncomputable def onWheelSeq (st : State) (evs : List WheelEvent) : State :=
  evs.foldl (fun s e => onWheel s e.gx e.gy e.deltaY) st

/-- The total zoom-level delta carried by a sequence of wheel events. -/
def accumulatedDelta (evs : List WheelEvent) : ℚ :=
  (evs.map (fun e => delta e.deltaY)).sum

end CanvasManager

theorem CanvasManager.onWheel_zoomLevel (st : CanvasManager.State) (gx gy : ℝ)
    (dY : ℚ) : (CanvasManager.onWheel st gx gy dY).zoomLevel =
      max (-30) (min (st.zoomLevel + CanvasManager.delta dY) 10) := rfl

theorem CanvasManager.onWheel_scale (st : CanvasManager.State) (gx gy : ℝ) (dY : ℚ) :
    (CanvasManager.onWheel st gx gy dY).scale =
      (11 / 10 : ℝ) ^ (((CanvasManager.onWheel st gx gy dY).zoomLevel : ℚ) : ℝ) := rfl

theorem CanvasManager.onWheelSeq_zoomLevel (st : CanvasManager.State)
    (evs : List CanvasManager.WheelEvent) :
    (CanvasManager.onWheelSeq st evs).zoomLevel =
      evs.foldl (fun z e => max (-30) (min (z + CanvasManager.delta e.deltaY) 10))
        st.zoomLevel := by
  induction evs generalizing st with
  | nil => rfl
  | cons e rest ih =>
      simp only [CanvasManager.onWheelSeq, List.foldl_cons] at *
      rw [ih]
      rfl

theorem CanvasManager.clampFold_of_nonneg (ds : List ℚ) (z : ℚ)
    (hds : ∀ d ∈ ds, 0 ≤ d) (hlo : -30 ≤ z) (hhi : z ≤ 10) :
    ds.foldl (fun a d => max (-30) (min (a + d) 10)) z = min (z + ds.sum) 10 := by
  induction ds generalizing z with
  | nil => simp [min_eq_left hhi]
  | cons d rest ih =>
      have hd : 0 ≤ d := hds d (by simp)
      have hrest : ∀ d₀ ∈ rest, 0 ≤ d₀ := fun d₀ h₀ => hds d₀ (by simp [h₀])
      have hS : 0 ≤ rest.sum := List.sum_nonneg hrest
      have hstep : max (-30) (min (z + d) 10) = min (z + d) 10 := by
        rw [max_eq_right]
        exact le_min (by linarith) (by norm_num)
      simp only [List.foldl_cons, hstep, List.sum_cons]
      rw [ih (min (z + d) 10) hrest
        (le_min (by linarith) (by norm_num)) (min_le_right _ _)]
      rcases le_total (z + d) 10 with h | h
      · rw [min_eq_left h]
        ring_nf
      · rw [min_eq_right h]
        rw [min_eq_right (by linarith), min_eq_right (by linarith)]

/-- C8 counterexample: from the initial state (zoom level 0, scale 1), the
wheel sequence with `deltaY = -25000` then `deltaY = 250` has accumulated
zoom-level delta `99 > 10`, yet the resulting zoom level is `9`, not `10`,
and the resulting scale differs from `1.1 ^ 10`. -/
theorem canvas_onWheel_overshoot_counterexample :
    CanvasManager.accumulatedDelta [⟨0, 0, -25000⟩, ⟨0, 0, 250⟩] = 99 ∧
    (10 : ℚ) < 99 ∧
    (CanvasManager.onWheelSeq ⟨0, 0, 0, 1⟩ [⟨0, 0, -25000⟩, ⟨0, 0, 250⟩]).zoomLevel = 9 ∧
    (CanvasManager.onWheelSeq ⟨0, 0, 0, 1⟩ [⟨0, 0, -25000⟩, ⟨0, 0, 250⟩]).scale ≠
      (11 / 10 : ℝ) ^ (10 : ℝ) := by
  have hz : (CanvasManager.onWheelSeq ⟨0, 0, 0, 1⟩
      [⟨0, 0, -25000⟩, ⟨0, 0, 250⟩]).zoomLevel = 9 := by
    rw [CanvasManager.onWheelSeq_zoomLevel]
    simp only [List.foldl_cons, List.foldl_nil]
    norm_num [CanvasManager.delta]
  refine ⟨by norm_num [CanvasManager.accumulatedDelta, CanvasManager.delta],
    by norm_num, hz, ?_⟩
  rw [CanvasManager.onWheelSeq, List.foldl_cons, List.foldl_cons, List.foldl_nil,
    CanvasManager.onWheel_scale]
  rw [show (CanvasManager.onWheel (CanvasManager.onWheel ⟨0, 0, 0, 1⟩ 0 0 (-25000))
      0 0 250).zoomLevel = 9 by
    rw [CanvasManager.onWheelSeq] at hz
    simpa using hz]
  rw [show (((9 : ℚ) : ℝ)) = (9 : ℝ) by norm_num]
  exact ne_of_lt ((Real.rpow_lt_rpow_left_iff (by norm_num)).mpr (by norm_num))

/-- C8 (amended): every wheel event leaves the zoom level in `[-30, 10]` with
the scale equal to `1.1 ^ zoomLevel`; and a nonempty sequence of zoom-in wheel
events (each with nonnegative zoom-level delta) whose accumulated delta
reaches the maximum, applied from the initial zoom level `0`, ends exactly at
zoom level `10` with scale exactly `1.1 ^ 10` — no overshoot. -/
theorem canvas_onWheel_zoom_clamp (st : CanvasManager.State) (gx gy : ℝ) (dY : ℚ)
    (evs : List CanvasManager.WheelEvent) (x0 y0 s0 : ℝ) :
    (-30 ≤ (CanvasManager.onWheel st gx gy dY).zoomLevel ∧
      (CanvasManager.onWheel st gx gy dY).zoomLevel ≤ 10 ∧
      (CanvasManager.onWheel st gx gy dY).scale =
        (11 / 10 : ℝ) ^ (((CanvasManager.onWheel st gx gy dY).zoomLevel : ℚ) : ℝ)) ∧
    (evs ≠ [] → (∀ e ∈ evs, 0 ≤ CanvasManager.delta e.deltaY) →
      10 ≤ CanvasManager.accumulatedDelta evs →
      (CanvasManager.onWheelSeq ⟨x0, y0, 0, s0⟩ evs).zoomLevel = 10 ∧
      (CanvasManager.onWheelSeq ⟨x0, y0, 0, s0⟩ evs).scale =
        (11 / 10 : ℝ) ^ (10 : ℝ)) := by
  constructor
  · refine ⟨le_max_left _ _, ?_, CanvasManager.onWheel_scale st gx gy dY⟩
    rw [CanvasManager.onWheel_zoomLevel]
    exact max_le (by norm_num) (min_le_right _ _)
  · intro hne hnn hacc
    have hz : (CanvasManager.onWheelSeq ⟨x0, y0, 0, s0⟩ evs).zoomLevel = 10 := by
      rw [CanvasManager.onWheelSeq_zoomLevel]
      have := CanvasManager.clampFold_of_nonneg
        (evs.map (fun e => CanvasManager.delta e.deltaY)) 0
        (by simpa using fun e he => hnn e he) (by norm_num) (by norm_num)
      rw [List.foldl_map] at this
      rw [this]
      have hsum : (10 : ℚ) ≤ (evs.map (fun e => CanvasManager.delta e.deltaY)).sum := hacc
      rw [min_eq_right (by linarith)]
    refine ⟨hz, ?_⟩
    rcases List.eq_nil_or_concat evs with rfl | ⟨L, e, rfl⟩
    · exact absurd rfl hne
    · rw [List.concat_eq_append] at hz ⊢
      rw [CanvasManager.onWheelSeq, List.foldl_append, List.foldl_cons, List.foldl_nil]
      rw [CanvasManager.onWheel_scale]
      rw [CanvasManager.onWheelSeq] at hz
      rw [List.foldl_append, List.foldl_cons, List.foldl_nil] at hz
      rw [hz]
      norm_num

/-- Witness for `canvas_onWheel_zoom_clamp`: a single wheel event with
`deltaY = -2500` (zoom-level delta exactly 10) from the initial state. -/
theorem canvas_onWheel_zoom_clamp_witness :
    (CanvasManager.onWheelSeq ⟨0, 0, 0, 1⟩ [⟨0, 0, -2500⟩]).zoomLevel = 10 ∧
    (CanvasManager.onWheelSeq ⟨0, 0, 0, 1⟩ [⟨0, 0, -2500⟩]).scale =
      (11 / 10 : ℝ) ^ (10 : ℝ) :=
  (canvas_onWheel_zoom_clamp ⟨0, 0, 0, 1⟩ 0 0 0 [⟨0, 0, -2500⟩] 0 0 1).2
    (by simp)
    (by intro e he; simp only [List.mem_singleton] at he; subst he;
        norm_num [CanvasManager.delta])
    (by norm_num [CanvasManager.accumulatedDelta, CanvasManager.delta])

namespace NodeLayoutManager

/-- `content.split('\n')` over the character list: split on every newline,
keeping empty segments (so a trailing newline yields a final empty line). -/
def splitNewlines : List Char → List Char → List (List Char)
  | [], acc => [acc.reverse]
  | c :: rest, acc =>
      if c = '\x0a' then acc.reverse :: splitNewlines rest []
      else splitNewlines rest (c :: acc)

/-- The lines of a content string, as in `calculateSizeForContent`. -/
def contentLines (content : String) : List (List Char) :=
  splitNewlines content.data []

/-- `lines.length`. -/
def lineCount (content : String) : ℕ := (contentLines content).length

/-- The `maxLineLength` loop: the length of the longest line (0 for none). -/
def maxLineLength (content : String) : ℕ :=
  (contentLines content).foldl (fun m l => max m l.length) 0

/-- The piecewise `heightFactor` of `calculateSizeForContent`: linear up to 20
lines, slower up to 100, slower again up to 500, then logarithmic.
`log10` stands for `Math.log10`. -/
def heightFactor (log10 : ℚ → ℚ) (lc : ℕ) : ℚ :=
  if lc ≤ 20 then lc
  else if lc ≤ 100 then 20 + ((lc : ℚ) - 20) * (7 / 10)
  else if lc ≤ 500 then 20 + 80 * (7 / 10) + ((lc : ℚ) - 100) * (4 / 10)
  else 20 + 80 * (7 / 10) + 400 * (4 / 10) + log10 ((lc : ℚ) - 500 + 1) * 50

/-- The `widthFactor` of `calculateSizeForContent`: the longest line length up
to the long-line threshold 80, then logarithmic growth. -/
def widthFactor (log10 : ℚ → ℚ) (ml : ℕ) : ℚ :=
  if ml ≤ 80 then ml
  else 80 + log10 ((ml : ℚ) - 80 + 1) * 30

/-- The calculated node size (width, height) in pixels, after rounding. -/
structure CalculatedSize where
  width : ℤ
  height : ℤ
  deriving DecidableEq, Repr

/-- `NodeLayoutManager.calculateSizeForContent` with the default sizing
config: `baseHeight 400`, `heightPerLine 18`, `baseWidth 450`,
`widthPerChar 8.5`, clamped to width `[300, 800]` and height `[200, 900]`,
then `Math.round`ed. -/
def calculateSizeForContent (log10 : ℚ → ℚ) (content : String) : CalculatedSize :=
  let lc := lineCount content
  let ml := maxLineLength content
  let calculatedHeight := 400 + heightFactor log10 lc * 18
  let calculatedWidth := 450 + max 0 (widthFactor log10 ml - 40) * (17 / 2)
  let clampedWidth := max 300 (min 800 calculatedWidth)
  let clampedHeight := max 200 (min 900 calculatedHeight)
  ⟨round clampedWidth, round clampedHeight⟩

end NodeLayoutManager

theorem round_mono_rat {a b : ℚ} (h : a ≤ b) : round a ≤ round b := by
  rw [round_eq, round_eq]
  exact Int.floor_le_floor (by linarith)

theorem NodeLayoutManager.heightFactor_mono (log10 : ℚ → ℚ)
    (hm : Monotone log10) (hnn : ∀ q : ℚ, 1 ≤ q → 0 ≤ log10 q) :
    Monotone (NodeLayoutManager.heightFactor log10) := by
  apply monotone_nat_of_le_succ
  intro n
  unfold NodeLayoutManager.heightFactor
  rcases le_or_lt (n + 1) 20 with h1 | h1
  · rw [if_pos (by omega), if_pos h1]
    exact_mod_cast Nat.le_succ n
  · rcases le_or_lt (n + 1) 100 with h2 | h2
    · rcases le_or_lt n 20 with h1a | h1a
      · have hn : n = 20 := by omega
        subst hn
        rw [if_pos le_rfl, if_neg (by omega), if_pos (by omega)]
        push_cast
        linarith
      · rw [if_neg (by omega), if_pos (by omega), if_neg (by omega), if_pos h2]
        push_cast
        linarith
    · rcases le_or_lt (n + 1) 500 with h3 | h3
      · rcases le_or_lt n 100 with h2a | h2a
        · have hn : n = 100 := by omega
          subst hn
          rw [if_neg (by omega), if_pos le_rfl, if_neg (by omega), if_neg (by omega),
            if_pos (by omega)]
          push_cast
          linarith
        · rw [if_neg (by omega), if_neg (by omega), if_pos (by omega),
            if_neg (by omega), if_neg (by omega), if_pos h3]
          push_cast
          linarith
      · rcases le_or_lt n 500 with h3a | h3a
        · have hn : n = 500 := by omega
          subst hn
          rw [if_neg (by omega), if_neg (by omega), if_pos le_rfl,
            if_neg (by omega), if_neg (by omega), if_neg (by omega)]
          have hlog := hnn 2 (by norm_num)
          push_cast
          norm_num
          linarith [hlog]
        · rw [if_neg (by omega), if_neg (by omega), if_neg (by omega),
            if_neg (by omega), if_neg (by omega), if_neg (by omega)]
          have hlog : log10 ((n : ℚ) - 500 + 1) ≤ log10 (((n + 1 : ℕ) : ℚ) - 500 + 1) := by
            apply hm
            push_cast
            linarith
          nlinarith

theorem NodeLayoutManager.widthFactor_mono (log10 : ℚ → ℚ)
    (hm : Monotone log10) (hnn : ∀ q : ℚ, 1 ≤ q → 0 ≤ log10 q) :
    Monotone (NodeLayoutManager.widthFactor log10) := by
  apply monotone_nat_of_le_succ
  intro m
  unfold NodeLayoutManager.widthFactor
  rcases le_or_lt (m + 1) 80 with h1 | h1
  · rw [if_pos (by omega), if_pos h1]
    exact_mod_cast Nat.le_succ m
  · rcases le_or_lt m 80 with h1a | h1a
    · have hmeq : m = 80 := by omega
      subst hmeq
      rw [if_pos le_rfl, if_neg (by omega)]
      have hlog := hnn 2 (by norm_num)
      push_cast
      norm_num
      linarith [hlog]
    · rw [if_neg (by omega), if_neg (by omega)]
      have hlog : log10 ((m : ℚ) - 80 + 1) ≤ log10 (((m + 1 : ℕ) : ℚ) - 80 + 1) := by
        apply hm
        push_cast
        linarith
      nlinarith

theorem round_between (lo hi : ℤ) (a b q : ℚ) (hla : (lo : ℚ) = a)
    (hhb : (hi : ℚ) = b) (hab : a ≤ b) :
    lo ≤ round (max a (min b q)) ∧ round (max a (min b q)) ≤ hi := by
  constructor
  · calc lo = round a := by rw [← hla, round_intCast]
      _ ≤ round (max a (min b q)) := round_mono_rat (le_max_left a (min b q))
  · calc round (max a (min b q)) ≤ round b :=
          round_mono_rat (max_le hab (min_le_left _ _))
      _ = hi := by rw [← hhb, round_intCast]

/-- C9: for every content string the calculated node size lies within the
configured clamp bounds, width in `[300, 800]` and height in `[200, 900]`;
and for a content of 800 lines whose longest line has 40 characters the height
is exactly the `maxHeight` clamp 900 and the width exactly the `baseWidth`
450. -/
theorem nodeLayout_size_bounds (log10 : ℚ → ℚ)
    (hnn : ∀ q : ℚ, 1 ≤ q → 0 ≤ log10 q) (content : String) :
    ((300 : ℤ) ≤ (NodeLayoutManager.calculateSizeForContent log10 content).width ∧
      (NodeLayoutManager.calculateSizeForContent log10 content).width ≤ 800 ∧
      (200 : ℤ) ≤ (NodeLayoutManager.calculateSizeForContent log10 content).height ∧
      (NodeLayoutManager.calculateSizeForContent log10 content).height ≤ 900) ∧
    (NodeLayoutManager.lineCount content = 800 →
      NodeLayoutManager.maxLineLength content = 40 →
      NodeLayoutManager.calculateSizeForContent log10 content = ⟨450, 900⟩) := by
  constructor
  · simp only [NodeLayoutManager.calculateSizeForContent]
    obtain ⟨hw1, hw2⟩ := round_between 300 800 300 800
      (450 + max 0 (NodeLayoutManager.widthFactor log10
        (NodeLayoutManager.maxLineLength content) - 40) * (17 / 2))
      (by norm_num) (by norm_num) (by norm_num)
    obtain ⟨hh1, hh2⟩ := round_between 200 900 200 900
      (400 + NodeLayoutManager.heightFactor log10
        (NodeLayoutManager.lineCount content) * 18)
      (by norm_num) (by norm_num) (by norm_num)
    exact ⟨hw1, hw2, hh1, hh2⟩
  · intro h800 h40
    have hwid : NodeLayoutManager.widthFactor log10 40 = 40 := by
      rw [NodeLayoutManager.widthFactor, if_pos (by norm_num)]
      norm_num
    have hfge : (236 : ℚ) ≤ NodeLayoutManager.heightFactor log10 800 := by
      rw [NodeLayoutManager.heightFactor, if_neg (by omega), if_neg (by omega),
        if_neg (by omega)]
      have harg : ((800 : ℕ) : ℚ) - 500 + 1 = 301 := by push_cast; norm_num
      rw [harg]
      linarith [hnn 301 (by norm_num)]
    simp only [NodeLayoutManager.calculateSizeForContent, h800, h40]
    have hwval : (450 : ℚ) + max 0 (NodeLayoutManager.widthFactor log10 40 - 40) *
        (17 / 2) = 450 := by
      rw [hwid]
      norm_num
    rw [hwval]
    rw [min_eq_right (by norm_num : (450 : ℚ) ≤ 800),
      max_eq_right (by norm_num : (300 : ℚ) ≤ 450)]
    rw [min_eq_left (by linarith : (900 : ℚ) ≤ 400 +
      NodeLayoutManager.heightFactor log10 800 * 18)]
    rw [max_eq_right (by norm_num : (200 : ℚ) ≤ 900)]
    rw [show (450 : ℚ) = ((450 : ℤ) : ℚ) by norm_num,
      show (900 : ℚ) = ((900 : ℤ) : ℚ) by norm_num, round_intCast, round_intCast]

/-- C10: the calculated size is monotone — a content with at least as many
lines and an at-least-as-long longest line gets a height and width at least
as large, across all branch boundaries of the piecewise curves. -/
theorem nodeLayout_size_monotone (log10 : ℚ → ℚ) (hm : Monotone log10)
    (hnn : ∀ q : ℚ, 1 ≤ q → 0 ≤ log10 q) (c₁ c₂ : String)
    (hlc : NodeLayoutManager.lineCount c₂ ≤ NodeLayoutManager.lineCount c₁)
    (hml : NodeLayoutManager.maxLineLength c₂ ≤ NodeLayoutManager.maxLineLength c₁) :
    (NodeLayoutManager.calculateSizeForContent log10 c₂).height ≤
      (NodeLayoutManager.calculateSizeForContent log10 c₁).height ∧
    (NodeLayoutManager.calculateSizeForContent log10 c₂).width ≤
      (NodeLayoutManager.calculateSizeForContent log10 c₁).width := by
  have hhf := NodeLayoutManager.heightFactor_mono log10 hm hnn hlc
  have hwf := NodeLayoutManager.widthFactor_mono log10 hm hnn hml
  simp only [NodeLayoutManager.calculateSizeForContent]
  constructor
  · apply round_mono_rat
    apply max_le_max le_rfl
    apply min_le_min le_rfl
    linarith
  · apply round_mono_rat
    apply max_le_max le_rfl
    apply min_le_min le_rfl
    have hmax : max 0 (NodeLayoutManager.widthFactor log10
        (NodeLayoutManager.maxLineLength c₂) - 40) ≤
        max 0 (NodeLayoutManager.widthFactor log10
          (NodeLayoutManager.maxLineLength c₁) - 40) :=
      max_le_max le_rfl (by linarith)
    nlinarith

theorem NodeLayoutManager.splitNewlines_replicate_a (m : ℕ) (rest acc : List Char) :
    NodeLayoutManager.splitNewlines (List.replicate m 'a' ++ rest) acc =
      NodeLayoutManager.splitNewlines rest (List.replicate m 'a' ++ acc) := by
  induction m generalizing acc with
  | zero => simp
  | succ m ih =>
      rw [List.replicate_succ, List.cons_append, NodeLayoutManager.splitNewlines]
      rw [if_neg (by decide : ¬('a' = '\x0a'))]
      rw [ih ('a' :: acc)]
      congr 1
      rw [show ('a' :: acc) = ['a'] ++ acc from rfl, ← List.append_assoc,
        ← List.replicate_succ', List.replicate_succ, List.cons_append]

theorem NodeLayoutManager.splitNewlines_replicate_nl (n : ℕ) (acc : List Char) :
    NodeLayoutManager.splitNewlines (List.replicate n '\x0a') acc =
      acc.reverse :: List.replicate n ([] : List Char) := by
  induction n generalizing acc with
  | zero => simp [NodeLayoutManager.splitNewlines]
  | succ n ih =>
      simp only [List.replicate_succ, NodeLayoutManager.splitNewlines, if_pos rfl]
      rw [ih]
      simp [List.replicate_succ]

theorem NodeLayoutManager.foldl_lineMax_replicate_nil (n k : ℕ) :
    (List.replicate n ([] : List Char)).foldl (fun m l => max m l.length) k = k := by
  induction n generalizing k with
  | zero => rfl
  | succ n ih => simp [List.replicate_succ, ih]

/-- The end-to-end scenario content: one 40-character line followed by 799
newlines, giving 800 lines with longest line length 40. -/
def NodeLayoutManager.scenarioContent : String :=
  String.mk (List.replicate 40 'a' ++ List.replicate 799 '\x0a')

theorem NodeLayoutManager.scenarioContent_lineCount :
    NodeLayoutManager.lineCount NodeLayoutManager.scenarioContent = 800 := by
  unfold NodeLayoutManager.lineCount NodeLayoutManager.contentLines
    NodeLayoutManager.scenarioContent
  rw [show (String.mk (List.replicate 40 'a' ++ List.replicate 799 '\x0a')).data =
    List.replicate 40 'a' ++ List.replicate 799 '\x0a' from rfl]
  rw [NodeLayoutManager.splitNewlines_replicate_a,
    NodeLayoutManager.splitNewlines_replicate_nl]
  rw [List.length_cons, List.length_replicate]

theorem NodeLayoutManager.scenarioContent_maxLineLength :
    NodeLayoutManager.maxLineLength NodeLayoutManager.scenarioContent = 40 := by
  unfold NodeLayoutManager.maxLineLength NodeLayoutManager.contentLines
    NodeLayoutManager.scenarioContent
  rw [show (String.mk (List.replicate 40 'a' ++ List.replicate 799 '\x0a')).data =
    List.replicate 40 'a' ++ List.replicate 799 '\x0a' from rfl]
  rw [NodeLayoutManager.splitNewlines_replicate_a,
    NodeLayoutManager.splitNewlines_replicate_nl]
  simp only [List.foldl_cons]
  rw [NodeLayoutManager.foldl_lineMax_replicate_nil]
  simp only [List.append_nil, List.length_reverse, List.length_replicate, Nat.zero_max]

/-- Witness for `nodeLayout_size_bounds`: the scenario content (800 lines,
longest line 40 characters) yields exactly width 450 and height 900. -/
theorem nodeLayout_size_bounds_witness :
    NodeLayoutManager.calculateSizeForContent (fun _ => 0)
      NodeLayoutManager.scenarioContent = ⟨450, 900⟩ :=
  (nodeLayout_size_bounds (fun _ => 0) (fun _ _ => le_refl 0)
      NodeLayoutManager.scenarioContent).2
    NodeLayoutManager.scenarioContent_lineCount
    NodeLayoutManager.scenarioContent_maxLineLength

/-- Witness for `nodeLayout_size_monotone`: the two-line content
`"aa\nb"` dominates the one-line content `"a"` in both dimensions. -/
theorem nodeLayout_size_monotone_witness :
    (NodeLayoutManager.calculateSizeForContent (fun _ => 0) "a").height ≤
      (NodeLayoutManager.calculateSizeForContent (fun _ => 0) "aa\x0ab").height ∧
    (NodeLayoutManager.calculateSizeForContent (fun _ => 0) "a").width ≤
      (NodeLayoutManager.calculateSizeForContent (fun _ => 0) "aa\x0ab").width :=
  nodeLayout_size_monotone (fun _ => 0) monotone_const (fun _ _ => le_refl 0)
    "aa\x0ab" "a" (by decide) (by decide)

/-- `Grid.updateMask`: the mask pass reads `provider.getMaskGlobalBounds()` as
a single rectangle per provider (as the `MaskProvider` interface declares),
converts its two corners to the grid's local space (`toLocal p = (p − o) / s`
for the grid's global transform with uniform scale `s` and translation
`(ox, oy)`), and issues one `.cut()` per provider. Returns the cut
rectangles in mask-pass order. -/
def Grid.updateMaskCuts (boundsOf : MaskManager.Handle → Rect)
    (providers : List MaskManager.Handle) (s ox oy : ℚ) : List Rect :=
  providers.map fun p =>
    let b := boundsOf p
    let ltx := (b.x - ox) / s
    let lty := (b.y - oy) / s
    let brx := (b.x + b.width - ox) / s
    let bry := (b.y + b.height - oy) / s
    ⟨ltx, lty, brx - ltx, bry - lty⟩

/-- `EditorNode.getMaskGlobalBounds()` (via `getGlobalBoundsList(0)`): the
node's own global rectangle followed by the global rectangles of any Monaco
popup widgets currently open (discovered by DOM scanning; modelled here as an
environment input). A node with an open popup reports more than one
rectangle. -/
def EditorNode.getMaskGlobalBounds (nodeGlobal : Rect) (widgetRects : List Rect) :
    List Rect :=
  nodeGlobal :: widgetRects

/-- C5 failing-input evaluation: an editor node reporting two rectangles —
its box `(0,0,10,10)` plus an open popup `(20,20,10,10)` — while the
consumers read one rectangle per provider (the node box). The grid mask pass
cuts exactly one rectangle for the provider, and the probe point `(25,25)`,
strictly inside the popup rectangle and inside the base screen, is classified
"hit" by `MaskedHitArea.contains` instead of the "not hit" the claim
requires. -/
theorem grid_mask_multi_rect_bug :
    (EditorNode.getMaskGlobalBounds ⟨0, 0, 10, 10⟩ [⟨20, 20, 10, 10⟩]).length = 2 ∧
    (Grid.updateMaskCuts (fun _ => ⟨0, 0, 10, 10⟩) [0] 1 0 0).length = 1 ∧
    Rect.strictlyInside ⟨20, 20, 10, 10⟩ 25 25 ∧
    MaskedHitArea.contains (fun _ => ⟨0, 0, 10, 10⟩) [0] ⟨0, 0, 100, 100⟩ 25 25 = true := by
  refine ⟨rfl, rfl, by norm_num [Rect.strictlyInside], ?_⟩
  rw [MaskedHitArea.contains]
  rw [if_neg (by norm_num [Rect.containsB])]
  simp only [List.all_cons, List.all_nil, Bool.and_true]
  norm_num [Rect.containsB]
